import Mathlib

/-!
Shallow embedding of the zlib-backed compression utility in src/zip.h and
src/zip.cpp.

Bytes are modelled as natural numbers and buffers as lists of bytes.  The
underlying deflate codec (zlib) is not part of the repository, so it is
modelled from the spec: a compressed blob is a 2-byte header carrying the
recognized magic values, followed by compressed blocks, followed by a 4-byte
trailer.  The model codec uses a stored block form (tag 0: a length field
followed by the raw payload) which the model encoder emits, and a run block
form (tag 1) standing for blobs whose decompressed size greatly exceeds
their compressed size.  The wrapper logic of src/zip.cpp - level validation,
the one-shot buffer-growth retry loop, the chunked streaming loops with
their guaranteed-teardown pattern, and the format sniffing predicate - is
translated directly from the source.
-/

namespace Zip

/-- The 64 KiB input chunk of the streaming operations
(`CHUNK_SIZE`, src/zip.cpp lines 125 and 167). -/
def CHUNK_SIZE : Nat := 64 * 1024

/-- The streaming output buffer holds `CHUNK_SIZE * 2` bytes
(src/zip.cpp lines 127 and 169). -/
def OUT_CAP : Nat := CHUNK_SIZE * 2

/-- One constructor per distinct throw site in src/zip.cpp. -/
inductive ZipError where
  | invalidArgument
  | compressFailed
  | decompressFailed
  | bufferTooSmall
  | deflateInitFailed
  | streamCompressError
  | streamDecompressError
  | decompressIncomplete
deriving DecidableEq, Repr

/-- The recognized second header bytes of a zlib stream (the four magic
pairs checked in src/zip.cpp lines 216-217). -/
def magicSecond (b : Nat) : Bool :=
  b == 0x01 || b == 0x5E || b == 0x9C || b == 0xDA

/-- Modelled from the spec: zlib itself is not in the repository; its
stream format is the 2-byte header, compressed blocks, 4-byte trailer.
The model encoder emits one stored block: tag 0, a length field, then the
raw payload, then the trailer. -/
def zencode (B : List Nat) : List Nat :=
  0x78 :: 0x9C :: 0 :: B.length :: (B ++ [0, 0, 0, 0])

/-- Modelled from the spec: whole-blob decoding, the inverse used by the
one-shot primitive.  It accepts the stored form and additionally a run
form (tag 1: a count and a byte), the latter standing for valid blobs
whose decompressed size greatly exceeds their compressed size.  Anything
else is undecodable. -/
def zdecode (c : List Nat) : Option (List Nat) :=
  match c with
  | h0 :: h1 :: 0 :: len :: rest =>
    if h0 = 0x78 ∧ magicSecond h1 = true ∧ rest.length = len + 4 ∧
        rest.drop len = [0, 0, 0, 0] then
      some (rest.take len)
    else none
  | h0 :: h1 :: 1 :: count :: b :: rest =>
    if h0 = 0x78 ∧ magicSecond h1 = true ∧ rest = [0, 0, 0, 0] then
      some (List.replicate count b)
    else none
  | _ => none

/-- Result of the modelled one-shot `uncompress` primitive. -/
inductive UncompressResult where
  | ok (out : List Nat)
  | bufError
  | dataError
deriving DecidableEq, Repr

/-- Modelled from the spec: zlib's one-shot `uncompress` succeeds and
reports the exact produced length when the destination capacity suffices,
reports destination-too-small otherwise, and reports a data error on any
undecodable input. -/
def uncompressModel (c : List Nat) (destCap : Nat) : UncompressResult :=
  match zdecode c with
  | some B => if B.length ≤ destCap then .ok B else .bufError
  | none => .dataError

/-- Modelled from the spec: zlib's one-shot `compress2` with a validated
level always succeeds within the `compressBound` capacity. -/
def compress2Model (data : List Nat) (_level : Int) : List Nat :=
  zencode data

/-- `Zip::compress` (src/zip.cpp lines 10-34): empty input short-circuits,
then the level is validated, then the one-shot primitive runs. -/
def compress (data : List Nat) (level : Int) : Except ZipError (List Nat) :=
  if data = [] then .ok []
  else if level < 0 ∨ 9 < level then .error .invalidArgument
  else .ok (compress2Model data level)

/-- The retry loop of `Zip::decompress` (src/zip.cpp lines 43-66),
attempts counting down from 5: a success returns the buffer truncated to
the produced length, destination-too-small grows the buffer size by the
integer factor 3/2 and retries, any other primitive failure is fatal at
once, and running out of attempts is the distinct exhaustion error. -/
def decompressLoop (compressed : List Nat) : Nat → Nat → Except ZipError (List Nat)
  | _, 0 => .error .bufferTooSmall
  | bufferSize, attempts + 1 =>
    match uncompressModel compressed bufferSize with
    | .ok out => .ok out
    | .dataError => .error .decompressFailed
    | .bufError => decompressLoop compressed (bufferSize * 3 / 2) attempts

/-- `Zip::decompress` (src/zip.cpp lines 37-67): empty input
short-circuits, otherwise the retry loop starts at twice the compressed
size with 5 attempts. -/
def decompress (compressed : List Nat) : Except ZipError (List Nat) :=
  if compressed = [] then .ok []
  else decompressLoop compressed (compressed.length * 2) 5

/-- `Zip::isZlibFormat` (src/zip.cpp lines 213-218). -/
def isZlibFormat (data : List Nat) : Bool :=
  if data.length < 2 then false
  else
    data.getD 0 0 == 0x78 &&
      (data.getD 1 0 == 0x01 || data.getD 1 0 == 0x5E ||
       data.getD 1 0 == 0x9C || data.getD 1 0 == 0xDA)

/-- Phase of the modelled codec state in compress mode. -/
inductive DefMode where
  | feeding
  | flushing
  | done
deriving DecidableEq, Repr

/-- Modelled from the spec: the opaque codec state in compress mode - the
input accumulated so far and the encoded output still pending. -/
structure DeflateState where
  mode : DefMode
  acc : List Nat
  pending : List Nat
deriving DecidableEq, Repr

/-- Modelled from the spec: one feed/produce cycle of the codec in
compress mode.  Without the finish flag the codec may buffer all input and
produce nothing yet; on the finishing call it forms the complete blob and
emits it bounded by the available output space per call, reporting stream
completion once the blob is fully drained. -/
def deflateStep (st : DeflateState) (input : List Nat) (finish : Bool)
    (availOut : Nat) : DeflateState × List Nat × Bool :=
  match st.mode with
  | .done => (st, [], true)
  | .feeding =>
    if finish then
      let pend := zencode (st.acc ++ input)
      if pend.drop availOut = [] then
        (⟨.done, st.acc ++ input, []⟩, pend.take availOut, true)
      else
        (⟨.flushing, st.acc ++ input, pend.drop availOut⟩, pend.take availOut, false)
    else (⟨.feeding, st.acc ++ input, []⟩, [], false)
  | .flushing =>
    if st.pending.drop availOut = [] then
      (⟨.done, st.acc, []⟩, st.pending.take availOut, true)
    else
      (⟨.flushing, st.acc, st.pending.drop availOut⟩, st.pending.take availOut, false)

/-- The inner drain loop of `Zip::compressStream` (src/zip.cpp lines
144-155): call the codec with a fresh output buffer, collect the produced
bytes, and repeat while the previous call filled the whole buffer
(`avail_out == 0`), the input having been consumed by the first call.  The
fuel argument bounds the iterations; the lemmas below show the fuel passed
by `compressOuter` is never exhausted. -/
def deflateDrain : DeflateState → List Nat → Bool → Nat → DeflateState × List Nat
  | st, _, _, 0 => (st, [])
  | st, input, finish, fuel + 1 =>
    match deflateStep st input finish OUT_CAP with
    | (st2, out, _) =>
      if out.length = OUT_CAP then
        match deflateDrain st2 [] finish fuel with
        | (st3, out2) => (st3, out ++ out2)
      else (st2, out)

/-- The outer loop of `Zip::compressStream` (src/zip.cpp lines 138-156):
read one chunk, mark it final when the source is exhausted (`eof` after the
read, i.e. fewer bytes than a full chunk remained), feed and drain the
codec, and repeat until the final chunk has been processed.  The fuel
bounds the iterations; the supplied fuel is shown sufficient below. -/
def compressOuter : DeflateState → List Nat → Nat → Except ZipError (List Nat)
  | _, _, 0 => .error .streamCompressError
  | st, rest, fuel + 1 =>
    let chunk := rest.take CHUNK_SIZE
    let finish := decide (rest.length < CHUNK_SIZE)
    match deflateDrain st chunk finish
        (st.acc.length + st.pending.length + chunk.length + 9) with
    | (st2, out) =>
      if finish then .ok out
      else
        match compressOuter st2 (rest.drop CHUNK_SIZE) fuel with
        | .ok out2 => .ok (out ++ out2)
        | .error e => .error e

/-- Modelled from the spec: `deflateInit2` accepts the codec's documented
level range - the default level -1 and the explicit levels 0..9 - and
rejects anything else. -/
def deflateInit2Ok (level : Int) : Bool :=
  decide (-1 ≤ level) && decide (level ≤ 9)

/-- `Zip::compressStream` (src/zip.cpp lines 124-163), instrumented: the
second component counts how many times the codec teardown (`deflateEnd`)
runs - once on the normal exit, once on the catch-and-rethrow path, and
never after a failed setup. -/
def compressStreamCore (input : List Nat) (level : Int) :
    Except ZipError (List Nat) × Nat :=
  if deflateInit2Ok level then
    match compressOuter ⟨.feeding, [], []⟩ input (input.length + 1) with
    | .ok out => (.ok out, 1)
    | .error e => (.error e, 1)
  else (.error .deflateInitFailed, 0)

/-- The value returned (or the error thrown) by `Zip::compressStream`. -/
def compressStream (input : List Nat) (level : Int) : Except ZipError (List Nat) :=
  (compressStreamCore input level).1

/-- How many times `Zip::compressStream` runs the codec teardown. -/
def compressStreamFinalizeCount (input : List Nat) (level : Int) : Nat :=
  (compressStreamCore input level).2

/-- Modelled from the spec: the opaque codec state in decompress mode -
all compressed bytes fed so far and the number of payload bytes already
produced. -/
structure InflateState where
  acc : List Nat
  emitted : Nat
deriving DecidableEq, Repr

/-- Modelled from the spec: one feed/produce cycle of the codec in
decompress mode over the stored block form.  Fed bytes accumulate; once
the header and length field are visible, the available payload bytes not
yet produced are emitted, bounded by the output space; the end of stream
is reported exactly when the whole blob, trailer included, has been fed
and the whole payload produced.  A wrong header or an unsupported block
form is a data error (`none`). -/
def inflateView (acc : List Nat) (em availOut : Nat) :
    Option (InflateState × List Nat × Bool) :=
  match acc with
  | [] => some (⟨acc, em⟩, [], false)
  | [_] => some (⟨acc, em⟩, [], false)
  | h0 :: h1 :: rest =>
    if h0 = 0x78 ∧ magicSecond h1 = true then
      match rest with
      | [] => some (⟨acc, em⟩, [], false)
      | 0 :: [] => some (⟨acc, em⟩, [], false)
      | 0 :: len :: body =>
        let e := min availOut (min len body.length - em)
        some (⟨acc, em + e⟩, (body.drop em).take e,
          decide (em + e = len ∧ len + 4 ≤ body.length))
      | _ => none
    else none

/-- One feed/produce cycle: the fed bytes join the accumulated buffer and
the view of the whole buffer decides what is produced. -/
def inflateStep (st : InflateState) (input : List Nat) (availOut : Nat) :
    Option (InflateState × List Nat × Bool) :=
  inflateView (st.acc ++ input) st.emitted availOut

/-- The inner drain loop of `Zip::decompressStream` (src/zip.cpp lines
186-198): call the codec with a fresh output buffer, fail on a codec
error, collect the produced bytes, and repeat while the whole buffer was
filled; the end-of-stream report of the last call is kept.  The fuel
bounds the iterations and is shown sufficient below. -/
def inflateDrain : InflateState → List Nat → Nat → Option (InflateState × List Nat × Bool)
  | _, _, 0 => none
  | st, input, fuel + 1 =>
    match inflateStep st input OUT_CAP with
    | none => none
    | some (st2, out, ended) =>
      if out.length = OUT_CAP then
        match inflateDrain st2 [] fuel with
        | none => none
        | some (st3, out2, ended2) => some (st3, out ++ out2, ended2)
      else some (st2, out, ended)

/-- The outer loop of `Zip::decompressStream` (src/zip.cpp lines 180-199):
read a chunk, stop when the source is exhausted (a zero-length read),
otherwise feed and drain, and continue until the codec reports the end of
the stream.  The boolean records whether the end of stream was reached. -/
def decompressOuter : InflateState → List Nat → Nat → Except ZipError (List Nat × Bool)
  | _, _, 0 => .error .streamDecompressError
  | st, rest, fuel + 1 =>
    let chunk := rest.take CHUNK_SIZE
    if chunk = [] then .ok ([], false)
    else
      match inflateDrain st chunk (chunk.length + 2) with
      | none => .error .streamDecompressError
      | some (st2, out, ended) =>
        if ended then .ok (out, true)
        else
          match decompressOuter st2 (rest.drop CHUNK_SIZE) fuel with
          | .ok (out2, e2) => .ok (out ++ out2, e2)
          | .error e => .error e

/-- `Zip::decompressStream` (src/zip.cpp lines 166-210), instrumented with
the teardown (`inflateEnd`) count.  The modelled `inflateInit2` always
succeeds.  Exhausting the input before the codec reports the end of the
stream is the "Decompression incomplete" error of src/zip.cpp lines
201-203. -/
def decompressStreamCore (input : List Nat) : Except ZipError (List Nat) × Nat :=
  match decompressOuter ⟨[], 0⟩ input (input.length + 1) with
  | .ok (out, true) => (.ok out, 1)
  | .ok (_, false) => (.error .decompressIncomplete, 1)
  | .error e => (.error e, 1)

/-- The value returned (or the error thrown) by `Zip::decompressStream`. -/
def decompressStream (input : List Nat) : Except ZipError (List Nat) :=
  (decompressStreamCore input).1

/-- How many times `Zip::decompressStream` runs the codec teardown. -/
def decompressStreamFinalizeCount (input : List Nat) : Nat :=
  (decompressStreamCore input).2

/-- Proof-support measure: after the first `k` bytes of `zencode B` have
been fed to the streaming decoder, this many payload bytes have been
produced (the header and length field occupy the first 4 positions). -/
def payloadDone (B : List Nat) (k : Nat) : Nat :=
  min B.length (k - 4)

end Zip

set_option maxRecDepth 8000 in
example : Zip.compressStream [1, 2, 3] 6 = .ok (Zip.zencode [1, 2, 3]) := rfl

set_option maxRecDepth 8000 in
example : Zip.decompressStream (Zip.zencode [1, 2, 3]) = .ok [1, 2, 3] := rfl

set_option maxRecDepth 8000 in
example : Zip.decompressStream ((Zip.zencode [1, 2, 3]).take 8) =
    .error .decompressIncomplete := rfl

example : Zip.decompress (Zip.zencode [1, 2, 3]) = .ok [1, 2, 3] := rfl

set_option maxRecDepth 8000 in
example : Zip.decompress [0x78, 0x9C, 1, 200, 7, 0, 0, 0, 0] =
    .error .bufferTooSmall := rfl

/-! ### One-shot decompression: loop-level helper lemmas -/

theorem decompressLoop_zero (c : List Nat) (s : Nat) :
    Zip.decompressLoop c s 0 = .error .bufferTooSmall := rfl

theorem decompressLoop_buf (c : List Nat) (s k : Nat)
    (h : Zip.uncompressModel c s = .bufError) :
    Zip.decompressLoop c s (k + 1) = Zip.decompressLoop c (s * 3 / 2) k := by
  simp [Zip.decompressLoop, h]

theorem decompressLoop_data (c : List Nat) (s k : Nat)
    (h : Zip.zdecode c = none) :
    Zip.decompressLoop c s (k + 1) = .error .decompressFailed := by
  simp [Zip.decompressLoop, Zip.uncompressModel, h]

theorem decompressLoop_ok (c B : List Nat) (s k : Nat)
    (hd : Zip.zdecode c = some B) (hle : B.length ≤ s) :
    Zip.decompressLoop c s (k + 1) = .ok B := by
  simp [Zip.decompressLoop, Zip.uncompressModel, hd, hle]

/-- C10: both one-shot operations special-case the empty buffer at the
public interface: compress on the empty input returns an empty output for
every level, valid or not, without reaching the level check or the codec,
and decompress on the empty input returns an empty output with no error. -/
theorem zip_C10 : ∀ level : Int,
    Zip.compress [] level = .ok [] ∧ Zip.decompress [] = .ok [] := by
  intro level
  exact ⟨rfl, rfl⟩

/-- C8: isZlibFormat is a pure predicate over the first two bytes: it is
true exactly when the buffer has at least two bytes, byte 0 is 0x78 and
byte 1 is one of 0x01, 0x5E, 0x9C, 0xDA; buffers of length at least 2
agreeing on their first two bytes get the same answer; shorter buffers get
false. -/
theorem zip_C8 :
    (∀ d : List Nat, Zip.isZlibFormat d = true ↔
      2 ≤ d.length ∧ d.getD 0 0 = 0x78 ∧
        (d.getD 1 0 = 0x01 ∨ d.getD 1 0 = 0x5E ∨ d.getD 1 0 = 0x9C ∨
         d.getD 1 0 = 0xDA)) ∧
    (∀ d e : List Nat, 2 ≤ d.length → 2 ≤ e.length →
      d.getD 0 0 = e.getD 0 0 → d.getD 1 0 = e.getD 1 0 →
      Zip.isZlibFormat d = Zip.isZlibFormat e) ∧
    (∀ d : List Nat, d.length < 2 → Zip.isZlibFormat d = false) := by
  refine ⟨?_, ?_, ?_⟩
  · intro d
    unfold Zip.isZlibFormat
    by_cases h : d.length < 2
    · rw [if_pos h]
      simp only [Bool.false_eq_true, false_iff]
      rintro ⟨h2, -⟩
      omega
    · rw [if_neg h]
      have h2 : 2 ≤ d.length := by omega
      simp only [Bool.and_eq_true, Bool.or_eq_true, beq_iff_eq]
      tauto
  · intro d e hd he h0 h1
    unfold Zip.isZlibFormat
    rw [if_neg (by omega), if_neg (by omega), h0, h1]
  · intro d h
    unfold Zip.isZlibFormat
    rw [if_pos h]

theorem zip_C8_witness :
    Zip.isZlibFormat [0x78, 0x9C, 1] = Zip.isZlibFormat [0x78, 0x9C, 2, 3] ∧
    Zip.isZlibFormat [0x78] = false :=
  ⟨zip_C8.2.1 [0x78, 0x9C, 1] [0x78, 0x9C, 2, 3] (by decide) (by decide)
      (by decide) (by decide),
   zip_C8.2.2 [0x78] (by decide)⟩

/-- C2 counterexample: with level 10 the one-shot compress on the empty
input succeeds with an empty output instead of failing with
InvalidArgument, and the streaming compress surfaces a codec setup failure
rather than an InvalidArgument error. -/
theorem zip_C2_cex :
    Zip.compress [] 10 = Except.ok [] ∧
    Zip.compressStream [1] 10 = Except.error Zip.ZipError.deflateInitFailed := by
  exact ⟨rfl, rfl⟩

/-- C5: for non-empty input the one-shot decompress starts the destination
at twice the compressed size with exactly 5 attempts; each
destination-too-small report grows the size by the integer factor 3/2;
running out of attempts is the distinct buffer-exhaustion error, so the
loop always terminates; and a success returns the buffer truncated to the
exact produced bytes. -/
theorem zip_C5 :
    (∀ c : List Nat, c ≠ [] →
      Zip.decompress c = Zip.decompressLoop c (c.length * 2) 5) ∧
    (∀ (c : List Nat) (s k : Nat), Zip.uncompressModel c s = .bufError →
      Zip.decompressLoop c s (k + 1) = Zip.decompressLoop c (s * 3 / 2) k) ∧
    (∀ (c : List Nat) (s : Nat),
      Zip.decompressLoop c s 0 = .error .bufferTooSmall) ∧
    (∀ (c B : List Nat) (s k : Nat), Zip.zdecode c = some B → B.length ≤ s →
      Zip.decompressLoop c s (k + 1) = .ok B) := by
  refine ⟨?_, decompressLoop_buf, decompressLoop_zero, decompressLoop_ok⟩
  intro c hne
  unfold Zip.decompress
  rw [if_neg hne]

theorem zip_C5_witness :
    Zip.decompress [1] = Zip.decompressLoop [1] 2 5 ∧
    Zip.decompressLoop (Zip.zencode [9]) 0 1 =
      Zip.decompressLoop (Zip.zencode [9]) 0 0 ∧
    Zip.decompressLoop [1] 7 0 = .error .bufferTooSmall ∧
    Zip.decompressLoop (Zip.zencode [9]) 1 1 = .ok [9] :=
  ⟨zip_C5.1 [1] (by decide),
   zip_C5.2.1 (Zip.zencode [9]) 0 0 (by decide),
   zip_C5.2.2.1 [1] 7,
   zip_C5.2.2.2 (Zip.zencode [9]) [9] 1 0 (by decide) (by decide)⟩

/-- C6: in the one-shot decompress any primitive failure other than
destination-too-small is fatal at once, with no retry: an undecodable
non-empty input fails with the decompression error at the first attempt,
whatever the buffer size and the remaining attempt budget, and bytes are
never returned as if successful. -/
theorem zip_C6 : ∀ c : List Nat, c ≠ [] → Zip.zdecode c = none →
    Zip.decompress c = .error .decompressFailed ∧
    ∀ s k : Nat, Zip.decompressLoop c s (k + 1) = .error .decompressFailed := by
  intro c hne hdec
  refine ⟨?_, fun s k => decompressLoop_data c s k hdec⟩
  unfold Zip.decompress
  rw [if_neg hne]
  exact decompressLoop_data c _ 4 hdec

theorem zip_C6_witness :
    Zip.decompress [1, 2, 3] = .error .decompressFailed ∧
    Zip.decompressLoop [1, 2, 3] 0 1 = .error .decompressFailed :=
  ⟨(zip_C6 [1, 2, 3] (by decide) (by decide)).1,
   (zip_C6 [1, 2, 3] (by decide) (by decide)).2 0 0⟩

/-- C9: the one-shot decompress has a hard output-size ceiling: a
decodable non-empty blob whose decompressed length exceeds the fifth
buffer size - twice the compressed size grown four times by the integer
factor 3/2 - fails with the buffer-exhaustion error even though the blob
is valid. -/
theorem zip_C9 : ∀ c B : List Nat, c ≠ [] → Zip.zdecode c = some B →
    c.length * 2 * 3 / 2 * 3 / 2 * 3 / 2 * 3 / 2 < B.length →
    Zip.decompress c = .error .bufferTooSmall := by
  intro c B hne hdec hbig
  have hbuf : ∀ s : Nat, s ≤ c.length * 2 * 3 / 2 * 3 / 2 * 3 / 2 * 3 / 2 →
      Zip.uncompressModel c s = .bufError := by
    intro s hs
    simp only [Zip.uncompressModel, hdec]
    rw [if_neg (by omega)]
  have e1 : Zip.decompressLoop c (c.length * 2) 5 =
      Zip.decompressLoop c (c.length * 2 * 3 / 2) 4 :=
    decompressLoop_buf c (c.length * 2) 4 (hbuf _ (by omega))
  have e2 : Zip.decompressLoop c (c.length * 2 * 3 / 2) 4 =
      Zip.decompressLoop c (c.length * 2 * 3 / 2 * 3 / 2) 3 :=
    decompressLoop_buf c _ 3 (hbuf _ (by omega))
  have e3 : Zip.decompressLoop c (c.length * 2 * 3 / 2 * 3 / 2) 3 =
      Zip.decompressLoop c (c.length * 2 * 3 / 2 * 3 / 2 * 3 / 2) 2 :=
    decompressLoop_buf c _ 2 (hbuf _ (by omega))
  have e4 : Zip.decompressLoop c (c.length * 2 * 3 / 2 * 3 / 2 * 3 / 2) 2 =
      Zip.decompressLoop c (c.length * 2 * 3 / 2 * 3 / 2 * 3 / 2 * 3 / 2) 1 :=
    decompressLoop_buf c _ 1 (hbuf _ (by omega))
  have e5 : Zip.decompressLoop c (c.length * 2 * 3 / 2 * 3 / 2 * 3 / 2 * 3 / 2) 1 =
      Zip.decompressLoop c
        (c.length * 2 * 3 / 2 * 3 / 2 * 3 / 2 * 3 / 2 * 3 / 2) 0 :=
    decompressLoop_buf c _ 0 (hbuf _ (by omega))
  unfold Zip.decompress
  rw [if_neg hne, e1, e2, e3, e4, e5]
  exact decompressLoop_zero c _

set_option maxRecDepth 8000 in
theorem zip_C9_witness :
    Zip.decompress [0x78, 0x9C, 1, 200, 7, 0, 0, 0, 0] =
      .error .bufferTooSmall :=
  zip_C9 [0x78, 0x9C, 1, 200, 7, 0, 0, 0, 0] (List.replicate 200 7)
    (by decide) (by decide) (by decide)

/-- C7: on every exit path taken after a successful codec setup, each
streaming operation runs the codec teardown exactly once - normal
completion and error paths alike - and a failed setup runs no teardown at
all. -/
theorem zip_C7 : ∀ (input : List Nat) (level : Int),
    Zip.compressStreamFinalizeCount input level =
      (if Zip.deflateInit2Ok level then 1 else 0) ∧
    Zip.decompressStreamFinalizeCount input = 1 := by
  intro input level
  constructor
  · unfold Zip.compressStreamFinalizeCount Zip.compressStreamCore
    by_cases h : Zip.deflateInit2Ok level
    · rw [if_pos h, if_pos h]
      cases Zip.compressOuter ⟨.feeding, [], []⟩ input (input.length + 1) <;> rfl
    · rw [if_neg h, if_neg h]
  · unfold Zip.decompressStreamFinalizeCount Zip.decompressStreamCore
    cases h : Zip.decompressOuter ⟨[], 0⟩ input (input.length + 1) with
    | ok p =>
      obtain ⟨out, b⟩ := p
      cases b <;> rfl
    | error e => rfl

/-! ### Streaming compression: step, drain and outer-loop lemmas -/

theorem chunk_size_val : Zip.CHUNK_SIZE = 65536 := rfl

theorem out_cap_val : Zip.OUT_CAP = 131072 := rfl

theorem zencode_length (B : List Nat) :
    (Zip.zencode B).length = B.length + 8 := by
  simp [Zip.zencode]

theorem deflateStep_done (a p input : List Nat) (finish : Bool) (availOut : Nat) :
    Zip.deflateStep ⟨.done, a, p⟩ input finish availOut = (⟨.done, a, p⟩, [], true) :=
  rfl

theorem deflateStep_feed (a input : List Nat) (availOut : Nat) :
    Zip.deflateStep ⟨.feeding, a, []⟩ input false availOut =
      (⟨.feeding, a ++ input, []⟩, [], false) := rfl

theorem deflateStep_finish_small (a input : List Nat) (availOut : Nat)
    (h : (Zip.zencode (a ++ input)).length ≤ availOut) :
    Zip.deflateStep ⟨.feeding, a, []⟩ input true availOut =
      (⟨.done, a ++ input, []⟩, Zip.zencode (a ++ input), true) := by
  show (if (Zip.zencode (a ++ input)).drop availOut = [] then _ else _) = _
  rw [if_pos (List.drop_eq_nil_of_le h), List.take_of_length_le h]

theorem deflateStep_finish_large (a input : List Nat) (availOut : Nat)
    (h : availOut < (Zip.zencode (a ++ input)).length) :
    Zip.deflateStep ⟨.feeding, a, []⟩ input true availOut =
      (⟨.flushing, a ++ input, (Zip.zencode (a ++ input)).drop availOut⟩,
        (Zip.zencode (a ++ input)).take availOut, false) := by
  show (if (Zip.zencode (a ++ input)).drop availOut = [] then _ else _) = _
  rw [if_neg (show ¬(Zip.zencode (a ++ input)).drop availOut = [] from fun hc => by
    have := List.drop_eq_nil_iff.mp hc
    omega)]

theorem deflateStep_flush_small (a p input : List Nat) (finish : Bool)
    (availOut : Nat) (h : p.length ≤ availOut) :
    Zip.deflateStep ⟨.flushing, a, p⟩ input finish availOut =
      (⟨.done, a, []⟩, p, true) := by
  show (if p.drop availOut = [] then _ else _) = _
  rw [if_pos (List.drop_eq_nil_of_le h), List.take_of_length_le h]

theorem deflateStep_flush_large (a p input : List Nat) (finish : Bool)
    (availOut : Nat) (h : availOut < p.length) :
    Zip.deflateStep ⟨.flushing, a, p⟩ input finish availOut =
      (⟨.flushing, a, p.drop availOut⟩, p.take availOut, false) := by
  show (if p.drop availOut = [] then _ else _) = _
  rw [if_neg (show ¬p.drop availOut = [] from fun hc => by
    have := List.drop_eq_nil_iff.mp hc
    omega)]

theorem deflateDrain_done (a p input : List Nat) (finish : Bool) (fuel : Nat) :
    Zip.deflateDrain ⟨.done, a, p⟩ input finish (fuel + 1) = (⟨.done, a, p⟩, []) := by
  simp only [Zip.deflateDrain, deflateStep_done]
  rw [if_neg (by simp [out_cap_val])]

theorem deflateDrain_flushing (a : List Nat) :
    ∀ (fuel : Nat) (pending : List Nat), pending.length < fuel →
      Zip.deflateDrain ⟨.flushing, a, pending⟩ [] true fuel =
        (⟨.done, a, []⟩, pending) := by
  intro fuel
  induction fuel with
  | zero => intro p h; omega
  | succ f ih =>
    intro pending hlen
    by_cases hle : pending.length ≤ Zip.OUT_CAP
    · simp only [Zip.deflateDrain, deflateStep_flush_small a pending [] true _ hle]
      by_cases heq : pending.length = Zip.OUT_CAP
      · rw [if_pos heq]
        obtain ⟨f2, rfl⟩ : ∃ f2, f = f2 + 1 :=
          ⟨f - 1, by rw [out_cap_val] at heq; omega⟩
        rw [deflateDrain_done]
        simp
      · rw [if_neg heq]
    · push_neg at hle
      simp only [Zip.deflateDrain, deflateStep_flush_large a pending [] true _ hle]
      rw [if_pos (by rw [List.length_take]; omega)]
      rw [ih (pending.drop Zip.OUT_CAP) (by
        have hoc := out_cap_val
        rw [List.length_drop]
        omega)]
      rw [List.take_append_drop]

theorem deflateDrain_finish (a input : List Nat) :
    ∀ fuel : Nat, (Zip.zencode (a ++ input)).length < fuel →
      Zip.deflateDrain ⟨.feeding, a, []⟩ input true fuel =
        (⟨.done, a ++ input, []⟩, Zip.zencode (a ++ input)) := by
  intro fuel hfuel
  obtain ⟨f, rfl⟩ : ∃ f, fuel = f + 1 := ⟨fuel - 1, by omega⟩
  by_cases hle : (Zip.zencode (a ++ input)).length ≤ Zip.OUT_CAP
  · simp only [Zip.deflateDrain, deflateStep_finish_small a input _ hle]
    by_cases heq : (Zip.zencode (a ++ input)).length = Zip.OUT_CAP
    · rw [if_pos heq]
      obtain ⟨f2, rfl⟩ : ∃ f2, f = f2 + 1 :=
        ⟨f - 1, by rw [out_cap_val] at heq; omega⟩
      rw [deflateDrain_done]
      simp
    · rw [if_neg heq]
  · push_neg at hle
    simp only [Zip.deflateDrain, deflateStep_finish_large a input _ hle]
    rw [if_pos (by rw [List.length_take]; omega)]
    rw [deflateDrain_flushing (a ++ input) f ((Zip.zencode (a ++ input)).drop Zip.OUT_CAP)
      (by
        have hoc := out_cap_val
        rw [List.length_drop]
        omega)]
    rw [List.take_append_drop]

theorem deflateDrain_feed (a input : List Nat) (fuel : Nat) (h : 1 ≤ fuel) :
    Zip.deflateDrain ⟨.feeding, a, []⟩ input false fuel =
      (⟨.feeding, a ++ input, []⟩, []) := by
  obtain ⟨f, rfl⟩ : ∃ f, fuel = f + 1 := ⟨fuel - 1, by omega⟩
  simp only [Zip.deflateDrain, deflateStep_feed]
  rw [if_neg (by simp [out_cap_val])]

theorem compressOuter_ok :
    ∀ fuel : Nat, ∀ a rest : List Nat, rest.length < fuel →
      Zip.compressOuter ⟨.feeding, a, []⟩ rest fuel =
        .ok (Zip.zencode (a ++ rest)) := by
  intro fuel
  induction fuel with
  | zero => intro _ _ h; omega
  | succ f ih =>
    intro a rest hlen
    simp only [Zip.compressOuter]
    by_cases hfin : rest.length < Zip.CHUNK_SIZE
    · rw [decide_eq_true hfin, List.take_of_length_le (le_of_lt hfin)]
      rw [deflateDrain_finish a rest _ (by
        rw [zencode_length, List.length_append]
        simp)]
      rw [if_pos rfl]
    · rw [decide_eq_false hfin]
      rw [deflateDrain_feed a (rest.take Zip.CHUNK_SIZE) _ (by omega)]
      rw [ih (a ++ rest.take Zip.CHUNK_SIZE) (rest.drop Zip.CHUNK_SIZE) (by
        rw [List.length_drop]
        rw [chunk_size_val] at hfin ⊢
        omega)]
      simp [List.append_assoc, List.take_append_drop]

theorem deflateInit2Ok_of (level : Int) (h0 : 0 ≤ level) (h9 : level ≤ 9) :
    Zip.deflateInit2Ok level = true := by
  unfold Zip.deflateInit2Ok
  rw [Bool.and_eq_true, decide_eq_true_eq, decide_eq_true_eq]
  omega

theorem compressStream_ok (input : List Nat) (level : Int)
    (h : Zip.deflateInit2Ok level = true) :
    Zip.compressStream input level = .ok (Zip.zencode input) := by
  unfold Zip.compressStream Zip.compressStreamCore
  rw [if_pos h]
  rw [compressOuter_ok (input.length + 1) [] input (by omega)]
  simp

/-- C2 amended: for every non-empty input and level outside [0,9] the
one-shot compress fails with InvalidArgument before invoking the codec and
produces no output; the empty input short-circuits before the level check
and yields an empty success; compressStream performs no level validation
of its own: level -1 is accepted by the codec as its default and the
compression succeeds outright, while any level below -1 or above 9
surfaces only as a codec setup failure, after setup was attempted - never
as InvalidArgument. -/
theorem zip_C2 : ∀ (data : List Nat) (level : Int),
    (data ≠ [] → (level < 0 ∨ 9 < level) →
      Zip.compress data level = .error .invalidArgument) ∧
    Zip.compress [] level = .ok [] ∧
    ((level < -1 ∨ 9 < level) →
      Zip.compressStream data level = .error .deflateInitFailed) ∧
    Zip.compressStream data (-1) = .ok (Zip.zencode data) := by
  intro data level
  refine ⟨?_, rfl, ?_, compressStream_ok data (-1) (by decide)⟩
  · intro hne hlvl
    unfold Zip.compress
    rw [if_neg hne, if_pos hlvl]
  · intro hlvl
    have hinit : Zip.deflateInit2Ok level = false := by
      unfold Zip.deflateInit2Ok
      rcases hlvl with h | h
      · rw [decide_eq_false (by omega : ¬(-1 : Int) ≤ level), Bool.false_and]
      · rw [decide_eq_false (by omega : ¬level ≤ 9), Bool.and_false]
    unfold Zip.compressStream Zip.compressStreamCore
    rw [hinit, if_neg (by decide)]

theorem zip_C2_witness :
    Zip.compress [1] 10 = .error .invalidArgument ∧
    Zip.compress [] 10 = .ok [] ∧
    Zip.compressStream [1] 10 = .error .deflateInitFailed ∧
    Zip.compressStream [1] (-1) = .ok (Zip.zencode [1]) :=
  ⟨(zip_C2 [1] 10).1 (by decide) (by decide),
   (zip_C2 [1] 10).2.1,
   (zip_C2 [1] 10).2.2.1 (by decide),
   (zip_C2 [1] (-1)).2.2.2⟩

/-! ### Streaming decompression: slice helpers and step lemmas -/

theorem zencode_take (B : List Nat) (k : Nat) (h : 4 ≤ k) :
    (Zip.zencode B).take k =
      0x78 :: 0x9C :: 0 :: B.length :: ((B ++ [0, 0, 0, 0]).take (k - 4)) := by
  obtain ⟨j, rfl⟩ : ∃ j, k = j + 4 := ⟨k - 4, by omega⟩
  simp [Zip.zencode, List.take_succ_cons]

theorem slice_in_take (l tr : List Nat) (n a e : Nat)
    (h1 : a + e ≤ n) (h2 : a + e ≤ l.length) :
    (((l ++ tr).take n).drop a).take e = (l.drop a).take e := by
  rw [List.drop_take, List.take_take, min_eq_left (by omega)]
  rw [List.drop_append_of_le_length (by omega)]
  rw [List.take_append_of_le_length (by rw [List.length_drop]; omega)]

theorem slice_glue (B : List Nat) (a b c : Nat) (hab : a ≤ b) (hbc : b ≤ c) :
    (B.drop a).take (b - a) ++ (B.take c).drop b = (B.take c).drop a := by
  rw [List.drop_take, List.drop_take]
  rw [show c - a = (b - a) + (c - b) from by omega]
  rw [List.take_add, List.drop_drop]
  rw [show a + (b - a) = b from by omega]

theorem inflateStep_eval (aOld input : List Nat) (em availOut len : Nat)
    (body : List Nat)
    (hacc : aOld ++ input = 0x78 :: 0x9C :: 0 :: len :: body) :
    Zip.inflateStep ⟨aOld, em⟩ input availOut =
      some (⟨0x78 :: 0x9C :: 0 :: len :: body,
          em + min availOut (min len body.length - em)⟩,
        (body.drop em).take (min availOut (min len body.length - em)),
        decide (em + min availOut (min len body.length - em) = len ∧
          len + 4 ≤ body.length)) := by
  unfold Zip.inflateStep
  dsimp only
  rw [hacc]
  rfl

theorem inflateStep_small (B : List Nat) (k2 : Nat) (h1 : 1 ≤ k2) (h3 : k2 ≤ 3) :
    Zip.inflateStep ⟨[], 0⟩ ((Zip.zencode B).take k2) Zip.OUT_CAP =
      some (⟨(Zip.zencode B).take k2, 0⟩, [], false) := by
  interval_cases k2 <;> rfl

theorem payloadDone_zero (B : List Nat) : Zip.payloadDone B 0 = 0 := by
  unfold Zip.payloadDone
  omega

theorem inflateStep_mid (B : List Nat) (k k2 : Nat)
    (_hk : k = 0 ∨ 4 ≤ k) (h4 : 4 ≤ k2) (hkk : k ≤ k2)
    (hk2 : k2 ≤ (Zip.zencode B).length) (hout : k2 - k < Zip.OUT_CAP) :
    Zip.inflateStep ⟨(Zip.zencode B).take k, Zip.payloadDone B k⟩
        (((Zip.zencode B).take k2).drop k) Zip.OUT_CAP =
      some (⟨(Zip.zencode B).take k2, Zip.payloadDone B k2⟩,
        (B.drop (Zip.payloadDone B k)).take
          (Zip.payloadDone B k2 - Zip.payloadDone B k),
        decide ((Zip.zencode B).length ≤ k2)) := by
  have hTlen := zencode_length B
  have hk4 : Zip.payloadDone B k ≤ k2 - 4 ∧ Zip.payloadDone B k ≤ B.length := by
    unfold Zip.payloadDone
    constructor <;> omega
  have hacc : (Zip.zencode B).take k ++ ((Zip.zencode B).take k2).drop k =
      0x78 :: 0x9C :: 0 :: B.length :: ((B ++ [0, 0, 0, 0]).take (k2 - 4)) := by
    conv_lhs =>
      rw [show (Zip.zencode B).take k = ((Zip.zencode B).take k2).take k from by
        rw [List.take_take, min_eq_left hkk]]
    rw [List.take_append_drop k ((Zip.zencode B).take k2)]
    exact zencode_take B k2 h4
  rw [inflateStep_eval _ _ _ _ _ _ hacc]
  have hbodylen : ((B ++ [0, 0, 0, 0]).take (k2 - 4)).length =
      min (k2 - 4) (B.length + 4) := by
    rw [List.length_take]
    simp
  have hmins : min B.length ((B ++ [0, 0, 0, 0]).take (k2 - 4)).length =
      Zip.payloadDone B k2 := by
    rw [hbodylen]
    unfold Zip.payloadDone
    omega
  rw [hmins]
  have he : min Zip.OUT_CAP (Zip.payloadDone B k2 - Zip.payloadDone B k) =
      Zip.payloadDone B k2 - Zip.payloadDone B k := by
    have hoc := out_cap_val
    unfold Zip.payloadDone
    omega
  rw [he]
  have hsum : Zip.payloadDone B k +
      (Zip.payloadDone B k2 - Zip.payloadDone B k) = Zip.payloadDone B k2 := by
    unfold Zip.payloadDone
    omega
  rw [hsum]
  have hout2 : (((B ++ [0, 0, 0, 0]).take (k2 - 4)).drop (Zip.payloadDone B k)).take
      (Zip.payloadDone B k2 - Zip.payloadDone B k) =
      (B.drop (Zip.payloadDone B k)).take
        (Zip.payloadDone B k2 - Zip.payloadDone B k) := by
    refine slice_in_take B [0, 0, 0, 0] (k2 - 4) _ _ ?_ ?_ <;>
      (unfold Zip.payloadDone; omega)
  rw [hout2]
  have hdec : decide (Zip.payloadDone B k2 = B.length ∧
        B.length + 4 ≤ ((B ++ [0, 0, 0, 0]).take (k2 - 4)).length) =
      decide ((Zip.zencode B).length ≤ k2) := by
    rw [decide_eq_decide, hbodylen, hTlen]
    unfold Zip.payloadDone
    omega
  rw [hdec, (zencode_take B k2 h4).symm]

theorem inflateDrain_single (st st2 : Zip.InflateState) (input out : List Nat)
    (ended : Bool) (fuel : Nat) (hf : 1 ≤ fuel)
    (hstep : Zip.inflateStep st input Zip.OUT_CAP = some (st2, out, ended))
    (hlen : out.length ≠ Zip.OUT_CAP) :
    Zip.inflateDrain st input fuel = some (st2, out, ended) := by
  obtain ⟨f, rfl⟩ : ∃ f, fuel = f + 1 := ⟨fuel - 1, by omega⟩
  simp only [Zip.inflateDrain, hstep]
  rw [if_neg hlen]

/-- Master lemma for the streaming decompressor's outer loop: feeding it
the first `m` bytes of `zencode B`, starting from the state that has
already consumed the first `k` of them, it collects exactly the payload
bytes available in those `m` bytes, and reports end of stream exactly when
`m` covers the whole blob. -/
theorem decompressOuter_master (B : List Nat) (m : Nat)
    (hm : m ≤ (Zip.zencode B).length) :
    ∀ fuel : Nat, ∀ k : Nat, m - k < fuel → (k = 0 ∨ 4 ≤ k ∨ k = m) → k ≤ m →
      k < (Zip.zencode B).length →
      Zip.decompressOuter ⟨(Zip.zencode B).take k, Zip.payloadDone B k⟩
          (((Zip.zencode B).take m).drop k) fuel =
        .ok ((B.take (Zip.payloadDone B m)).drop (Zip.payloadDone B k),
          decide ((Zip.zencode B).length ≤ m)) := by
  have hTlen := zencode_length B
  have hcs := chunk_size_val
  have hoc := out_cap_val
  intro fuel
  induction fuel with
  | zero => intro k h _ _ _; omega
  | succ f ih =>
    intro k hfuel hkinv hkm hkT
    by_cases hkeq : k = m
    · subst hkeq
      simp only [Zip.decompressOuter]
      rw [List.drop_eq_nil_of_le (by rw [List.length_take]; omega)]
      rw [List.take_nil, if_pos rfl]
      rw [List.drop_eq_nil_of_le (show (B.take (Zip.payloadDone B k)).length ≤
        Zip.payloadDone B k by rw [List.length_take]; omega)]
      rw [decide_eq_false (by omega : ¬(Zip.zencode B).length ≤ k)]
    · have hklt : k < m := by omega
      have hkinv2 : k = 0 ∨ 4 ≤ k := by
        rcases hkinv with h | h | h
        · exact Or.inl h
        · exact Or.inr h
        · exact absurd h hkeq
      simp only [Zip.decompressOuter]
      set k2 := min (k + Zip.CHUNK_SIZE) m with hk2def
      have hchunk : (((Zip.zencode B).take m).drop k).take Zip.CHUNK_SIZE =
          ((Zip.zencode B).take k2).drop k := by
        rw [List.drop_take, List.take_take, List.drop_take]
        congr 1
        omega
      rw [hchunk]
      have hk2gtk : k < k2 := by omega
      have hk2le : k2 ≤ m := by omega
      have hk2T : k2 ≤ (Zip.zencode B).length := by omega
      rw [if_neg (show ¬((Zip.zencode B).take k2).drop k = [] from by
        intro hc
        have := List.drop_eq_nil_iff.mp hc
        rw [List.length_take] at this
        omega)]
      by_cases hm4 : 4 ≤ m
      · have hk24 : 4 ≤ k2 := by omega
        have hstep := inflateStep_mid B k k2 hkinv2 hk24 (le_of_lt hk2gtk)
          hk2T (by omega)
        rw [inflateDrain_single _ _ _ _ _ _ (by omega) hstep (by
          rw [List.length_take]
          have : Zip.payloadDone B k2 - Zip.payloadDone B k ≤ k2 - k := by
            unfold Zip.payloadDone
            omega
          omega)]
        by_cases hend : (Zip.zencode B).length ≤ k2
        · have hk2m : k2 = m := by omega
          rw [decide_eq_true hend, hk2m]
          have hout3 : (B.take (Zip.payloadDone B m)).drop (Zip.payloadDone B k) =
              (B.drop (Zip.payloadDone B k)).take
                (Zip.payloadDone B m - Zip.payloadDone B k) :=
            List.drop_take _ _ _
          rw [decide_eq_true (show (Zip.zencode B).length ≤ m by omega)]
          simp [hout3]
        · rw [decide_eq_false hend]
          have hdd : ((Zip.zencode B).take m).drop (k + Zip.CHUNK_SIZE) =
              ((Zip.zencode B).take m).drop k2 := by
            rcases le_or_lt (k + Zip.CHUNK_SIZE) m with hle2 | hlt2
            · rw [hk2def, min_eq_left hle2]
            · rw [List.drop_eq_nil_of_le (by rw [List.length_take]; omega),
                List.drop_eq_nil_of_le (by rw [List.length_take]; omega)]
          rw [List.drop_drop, hdd]
          have hrec := ih k2 (by omega) (Or.inr (Or.inl hk24)) hk2le (by omega)
          have hglue := slice_glue B (Zip.payloadDone B k) (Zip.payloadDone B k2)
            (Zip.payloadDone B m) (by unfold Zip.payloadDone; omega)
            (by unfold Zip.payloadDone; omega)
          simp [hrec, hglue]
      · rcases hkinv2 with hk0 | hk4
        swap
        · omega
        subst hk0
        have hk2m : k2 = m := by omega
        rw [hk2m, List.drop_zero, List.take_zero, payloadDone_zero]
        rw [inflateDrain_single _ _ _ _ _ _ (by omega)
          (inflateStep_small B m (by omega) (by omega)) (by
          rw [out_cap_val]
          decide)]
        rw [List.drop_zero]
        have hnil1 : ((Zip.zencode B).take m).drop Zip.CHUNK_SIZE = [] :=
          List.drop_eq_nil_of_le (by rw [List.length_take]; omega)
        rw [hnil1]
        have hpdm0 : Zip.payloadDone B m = 0 := by
          unfold Zip.payloadDone
          omega
        have hnil2 : ((Zip.zencode B).take m).drop m = [] :=
          List.drop_eq_nil_of_le (by rw [List.length_take]; omega)
        have hrec := ih m (by omega) (Or.inr (Or.inr rfl)) (le_refl m) (by omega)
        rw [hpdm0, hnil2] at hrec
        simp [hrec, hpdm0, payloadDone_zero]

/-! ### Streaming round-trip, empty input and truncation claims -/

theorem decompressStream_ok (B : List Nat) :
    Zip.decompressStream (Zip.zencode B) = .ok B := by
  unfold Zip.decompressStream Zip.decompressStreamCore
  have hT := zencode_length B
  have h := decompressOuter_master B (Zip.zencode B).length (le_refl _)
    ((Zip.zencode B).length + 1) 0 (by omega) (Or.inl rfl) (by omega) (by omega)
  rw [List.take_zero, payloadDone_zero, List.take_length, List.drop_zero] at h
  have hpd : Zip.payloadDone B (Zip.zencode B).length = B.length := by
    unfold Zip.payloadDone
    omega
  rw [hpd, List.take_length,
    decide_eq_true (le_refl (Zip.zencode B).length)] at h
  rw [h]
  simp

/-- C1: for every byte sequence and every level in [0,9], streaming
decompression of the streaming compression output reproduces the input
exactly. -/
theorem zip_C1 : ∀ (B : List Nat) (L : Int), 0 ≤ L → L ≤ 9 →
    Except.bind (Zip.compressStream B L) Zip.decompressStream =
      Except.ok B := by
  intro B L h0 h9
  rw [compressStream_ok B L (deflateInit2Ok_of L h0 h9)]
  show Zip.decompressStream (Zip.zencode B) = .ok B
  exact decompressStream_ok B

theorem zip_C1_witness :
    Except.bind (Zip.compressStream [1, 2, 3] 6) Zip.decompressStream =
      Except.ok [1, 2, 3] :=
  zip_C1 [1, 2, 3] 6 (by decide) (by decide)

/-- C4: a compressed blob with any of its final bytes removed makes the
streaming decompressor fail with the truncated-stream error
("Decompression incomplete"); input exhaustion before the codec reports
stream end is never a success. -/
theorem zip_C4 : ∀ (B : List Nat) (m : Nat), m < (Zip.zencode B).length →
    Zip.decompressStream ((Zip.zencode B).take m) =
      .error .decompressIncomplete := by
  intro B m hm
  unfold Zip.decompressStream Zip.decompressStreamCore
  have hT := zencode_length B
  have hlen : ((Zip.zencode B).take m).length = m := by
    rw [List.length_take]
    omega
  have h := decompressOuter_master B m (le_of_lt hm) (m + 1) 0 (by omega)
    (Or.inl rfl) (by omega) (by omega)
  rw [List.take_zero, payloadDone_zero, List.drop_zero] at h
  rw [decide_eq_false (by omega : ¬(Zip.zencode B).length ≤ m)] at h
  rw [hlen, h]

theorem zip_C4_witness :
    Zip.decompressStream ((Zip.zencode [5]).take 3) =
      .error .decompressIncomplete :=
  zip_C4 [5] 3 (by decide)

/-- C3 counterexample: with a valid level the one-shot compress on the
empty input returns an empty output - not a non-empty minimal blob. -/
theorem zip_C3_cex : Zip.compress [] 6 = Except.ok [] := rfl

/-- C3 amended: with a valid level, streaming compress on the empty input
yields the non-empty minimal blob (header, empty stored block, trailer),
and decompressing that blob - streaming or one-shot - yields the empty
sequence; one-shot compress, however, special-cases the empty input and
returns an empty output without producing any blob, for every level. -/
theorem zip_C3 : ∀ level : Int, 0 ≤ level → level ≤ 9 →
    Zip.compressStream [] level = .ok (Zip.zencode []) ∧
    Zip.zencode [] = [0x78, 0x9C, 0, 0, 0, 0, 0, 0] ∧
    Zip.decompressStream (Zip.zencode []) = .ok [] ∧
    Zip.decompress (Zip.zencode []) = .ok [] ∧
    (∀ levelAny : Int, Zip.compress [] levelAny = .ok []) := by
  intro level h0 h9
  exact ⟨compressStream_ok [] level (deflateInit2Ok_of level h0 h9), rfl,
    decompressStream_ok [], rfl, fun _ => rfl⟩

theorem zip_C3_witness :
    Zip.compressStream [] 6 = .ok (Zip.zencode []) ∧
    Zip.decompressStream (Zip.zencode []) = .ok [] ∧
    Zip.decompress (Zip.zencode []) = .ok [] ∧
    Zip.compress [] 10 = .ok [] :=
  ⟨(zip_C3 6 (by decide) (by decide)).1,
   (zip_C3 6 (by decide) (by decide)).2.2.1,
   (zip_C3 6 (by decide) (by decide)).2.2.2.1,
   (zip_C3 6 (by decide) (by decide)).2.2.2.2 10⟩
